import Mathlib

/-!
Verification development for the TraceParse repository (Go).

This file gives a shallow embedding of the random-access trace storage
layer of the repository:

- `pkg/core/parse.go`: the record parser `ParseLine` together with its
  numeric helpers (Go's `strconv.ParseUint` with explicit base 16 and
  with automatic base detection, `strings.TrimSpace`, `strings.Split`),
  and the `TraceManager` cursor operations `Next`, `Prev`, `GoTo`,
  `AddInstruction`, `GetCurrent`, `GetLine`.
- `pkg/core/cache.go`: the `FileCache` operations `GetLine`,
  `loadLineFromFile`, `prefetchAround` and `evictOldEntries`, modelled
  as explicit state passing over the cache map (an association list
  keyed by line number).

Go strings are modelled as lists of characters; machine integers are
modelled as `Nat`/`Int` with explicit bounds where overflow matters; Go
functions that can panic (an out-of-range slice or index) return an
`Option`, with `none` standing for the panic.
-/

namespace TraceParse

/-! ## Go character/string helpers used by parse.go -/

/-- Go's `unicode.IsSpace`: the Unicode white-space code points, as used
by `strings.TrimSpace` in `ParseLine`. -/
def goIsSpace (c : Char) : Bool :=
  let n := c.toNat
  n == 0x20 || n == 0x9 || n == 0xA || n == 0xB || n == 0xC || n == 0xD ||
  n == 0x85 || n == 0xA0 || n == 0x1680 ||
  n == 0x2000 || n == 0x2001 || n == 0x2002 || n == 0x2003 || n == 0x2004 ||
  n == 0x2005 || n == 0x2006 || n == 0x2007 || n == 0x2008 || n == 0x2009 ||
  n == 0x200A || n == 0x2028 || n == 0x2029 || n == 0x202F || n == 0x205F ||
  n == 0x3000

/-- Go's `strings.TrimSpace`: drop white space from both ends. -/
def trimSpace (s : List Char) : List Char :=
  ((s.dropWhile goIsSpace).reverse.dropWhile goIsSpace).reverse

/-- Go's `strings.Split(line, "|")` for the one-character separator `'|'`:
the list of fields between the pipes (an empty input yields one empty
field, as in Go). -/
def splitFields : List Char → List (List Char)
  | [] => [[]]
  | c :: cs =>
    if c = '|' then [] :: splitFields cs
    else
      match splitFields cs with
      | [] => [[c]]
      | f :: fs => (c :: f) :: fs

/-! ## Go's strconv.ParseUint -/

/-- Go's `lower(c) = c | ('x' - 'X')` on a character code: set bit 5. -/
def lowerN (n : Nat) : Nat :=
  if (n / 32) % 2 = 0 then n + 32 else n

/-- The digit value of a character as in `strconv.ParseUint`:
`'0'..'9'` and letters (via `lower`) with values `10..35`; anything else
is a syntax error. -/
def digitVal (c : Char) : Option Nat :=
  let n := c.toNat
  if 0x30 ≤ n ∧ n ≤ 0x39 then some (n - 0x30)
  else if 0x61 ≤ lowerN n ∧ lowerN n ≤ 0x7A then some (lowerN n - 0x61 + 10)
  else none

/-- State of Go's `underscoreOK` scan: start of number, last saw a digit
(or a base prefix), last saw an underscore, last saw anything else. -/
inductive USaw where
  | start
  | digit
  | under
  | other
  deriving DecidableEq, BEq

/-- The scanning loop of Go's `underscoreOK`: underscores may appear
only between digits (a base prefix counts as a digit). -/
def underLoop : List Char → Bool → USaw → Bool
  | [], _, saw => !(saw == USaw.under)
  | c :: cs, hex, saw =>
    if (0x30 ≤ c.toNat ∧ c.toNat ≤ 0x39) ∨
       (hex = true ∧ 0x61 ≤ lowerN c.toNat ∧ lowerN c.toNat ≤ 0x66) then
      underLoop cs hex USaw.digit
    else if c = '_' then
      if saw == USaw.digit then underLoop cs hex USaw.under else false
    else if saw == USaw.under then false
    else underLoop cs hex USaw.other

/-- Go's `strconv`-internal `underscoreOK`: reports whether the
underscores in the original token are syntactically valid. -/
def underscoreOK (s0 : List Char) : Bool :=
  let s1 := match s0 with
    | c :: cs => if c = '-' ∨ c = '+' then cs else c :: cs
    | [] => []
  match s1 with
  | '0' :: c :: rest =>
    if lowerN c.toNat = 0x62 ∨ lowerN c.toNat = 0x6F ∨ lowerN c.toNat = 0x78 then
      underLoop rest (decide (lowerN c.toNat = 0x78)) USaw.digit
    else underLoop ('0' :: c :: rest) false USaw.start
  | _ => underLoop s1 false USaw.start

/-- The digit-accumulation loop of `strconv.ParseUint`: `'_'` is skipped
(and flagged) only in base-detection mode; a non-digit or a digit that
is not below the base is a syntax error.  Returns the accumulated value
and whether an underscore was seen. -/
def digitsLoop : List Char → Nat → Nat → Bool → Bool → Option (Nat × Bool)
  | [], _, acc, sawU, _ => some (acc, sawU)
  | c :: cs, base, acc, sawU, base0 =>
    if c = '_' ∧ base0 = true then digitsLoop cs base acc true base0
    else
      match digitVal c with
      | none => none
      | some d => if base ≤ d then none else digitsLoop cs base (acc * base + d) sawU base0

/-- The tail of `strconv.ParseUint` after base selection: run the digit
loop over `digits`, validate underscores against the original token
`s0`, and fail (Go's range error) if the value exceeds `2^bitSize - 1`. -/
def parseUintDigits (s0 digits : List Char) (base bitSize : Nat) (base0 : Bool) : Option Nat :=
  match digitsLoop digits base 0 false base0 with
  | none => none
  | some (v, sawU) =>
    if sawU = true ∧ underscoreOK s0 = false then none
    else if 2 ^ bitSize - 1 < v then none
    else some v

/-- Go's `strconv.ParseUint(s, base, bitSize)` restricted to the shapes
used by `ParseLine`: an explicit base in `2..36`, or base `0` with
automatic base detection (`0x`/`0X` hex, `0b` binary, `0o` octal, a
leading `0` legacy octal, else decimal).  `none` is any Go error
(empty input, syntax error, misplaced underscore, or range error). -/
def parseUint (s : List Char) (base bitSize : Nat) : Option Nat :=
  if s = [] then none
  else if 2 ≤ base ∧ base ≤ 36 then parseUintDigits s s base bitSize false
  else if base = 0 then
    match s with
    | '0' :: c :: d :: rest =>
      if lowerN c.toNat = 0x62 then parseUintDigits s (d :: rest) 2 bitSize true
      else if lowerN c.toNat = 0x6F then parseUintDigits s (d :: rest) 8 bitSize true
      else if lowerN c.toNat = 0x78 then parseUintDigits s (d :: rest) 16 bitSize true
      else parseUintDigits s (c :: d :: rest) 8 bitSize true
    | '0' :: rest => parseUintDigits s rest 8 bitSize true
    | _ => parseUintDigits s s 10 bitSize true
  else none

/-! ## The record parser (parse.go, ParseLine) -/

/-- `TraceLine` of parse.go: one parsed instruction snapshot.  `Regs`
holds the 31 general-purpose registers x0..x30 (the Go array
`[31]uint64`), `Step` is the `uint32` step counter. -/
structure TraceLine where
  Step : Nat
  Addr : Nat
  Offset : Nat
  Instr : String
  Regs : List Nat
  SP : Nat
  PC : Nat
  deriving DecidableEq

/-- The information content of the errors `ParseLine` produces: the
field-count error carries the observed count; every other error names
the field (or register index) whose numeric parse failed. -/
inductive FErr where
  | fieldCount (n : Nat)
  | step
  | addr
  | offset
  | reg (i : Nat)
  | sp
  | pc
  deriving DecidableEq

/-- Result of a call to `ParseLine`: a record, an error, or a Go panic
(the out-of-range slice in the quote-stripping step). -/
inductive ParseOutcome where
  | ok (t : TraceLine)
  | err (e : FErr)
  | panic
  deriving DecidableEq

/-- The quote-stripping step of `ParseLine` (parse.go lines 90-92):
if the trimmed instruction text starts and ends with `'"'`, Go takes
the byte slice `s[1 : len(s)-1]`.  For the single character `'"'` both
checks succeed and the slice bounds are `[1:0]`, which panics; `none`
models that panic. -/
def stripQuotes (l : List Char) : Option (List Char) :=
  if l.head? = some '"' ∧ l.getLast? = some '"' then
    if 2 ≤ l.length then some ((l.drop 1).dropLast) else none
  else some l

/-- The register loop of `ParseLine` (parse.go lines 95-101): parse
`count` register fields starting at register index `i` (stored in field
`4 + i`), each as `ParseUint(_, 0, 64)`; the first failure aborts with
that register's index. -/
def parseRegsAux (fs : List (List Char)) : Nat → Nat → Except Nat (List Nat)
  | 0, _ => Except.ok []
  | n + 1, i =>
    match parseUint (trimSpace (fs.getD (4 + i) [])) 0 64 with
    | none => Except.error i
    | some v =>
      match parseRegsAux fs n (i + 1) with
      | Except.error j => Except.error j
      | Except.ok vs => Except.ok (v :: vs)

/-- The tail of `ParseLine` after the instruction field: registers
x0..x28 from fields 4..32, x29 from field 33, x30 from field 34, the
stack pointer from field 35 and the program counter from field 36. -/
def parseTail (fs : List (List Char)) (stepv addr off : Nat) (instr : List Char) : ParseOutcome :=
  match parseRegsAux fs 29 0 with
  | Except.error i => ParseOutcome.err (FErr.reg i)
  | Except.ok rs =>
    match parseUint (trimSpace (fs.getD 33 [])) 0 64 with
    | none => ParseOutcome.err (FErr.reg 29)
    | some r29 =>
      match parseUint (trimSpace (fs.getD 34 [])) 0 64 with
      | none => ParseOutcome.err (FErr.reg 30)
      | some r30 =>
        match parseUint (trimSpace (fs.getD 35 [])) 0 64 with
        | none => ParseOutcome.err FErr.sp
        | some sp =>
          match parseUint (trimSpace (fs.getD 36 [])) 0 64 with
          | none => ParseOutcome.err FErr.pc
          | some pc =>
            ParseOutcome.ok
              { Step := stepv, Addr := addr, Offset := off, Instr := ⟨instr⟩,
                Regs := rs ++ [r29, r30], SP := sp, PC := pc }

/-- `ParseLine` after the field-count check: step is base-16 32-bit
from field 0; address and offset are base-detected 64-bit from fields 1
and 2; field 3 is the trimmed, quote-stripped instruction text (which
can panic); then `parseTail`. -/
def parseAfterCount (fs : List (List Char)) : ParseOutcome :=
  match parseUint (trimSpace (fs.getD 0 [])) 16 32 with
  | none => ParseOutcome.err FErr.step
  | some stepv =>
    match parseUint (trimSpace (fs.getD 1 [])) 0 64 with
    | none => ParseOutcome.err FErr.addr
    | some addr =>
      match parseUint (trimSpace (fs.getD 2 [])) 0 64 with
      | none => ParseOutcome.err FErr.offset
      | some off =>
        match stripQuotes (trimSpace (fs.getD 3 [])) with
        | none => ParseOutcome.panic
        | some instr => parseTail fs stepv addr off instr

/-- `ParseLine` of parse.go (lines 59-132): split on `'|'`, require
exactly 37 fields (the error carries the observed count), then parse
the fields in source order. -/
def ParseLine (line : String) : ParseOutcome :=
  let fs := splitFields line.data
  if fs.length ≠ 37 then ParseOutcome.err (FErr.fieldCount fs.length)
  else parseAfterCount fs

/-- Whether an outcome is a record. -/
def pIsOk : ParseOutcome → Bool
  | ParseOutcome.ok _ => true
  | _ => false

/-- Whether an outcome is an error value (Go's non-nil `error`). -/
def pIsErr : ParseOutcome → Bool
  | ParseOutcome.err _ => true
  | _ => false

/-! ## The windowed trace manager (parse.go, TraceManager) -/

/-- `TraceManager` of parse.go.  `Instructions` is the loaded window of
records (entries come from successful `ParseLine` calls, so they are
modelled as values, not nullable pointers); indices are Go `int`s,
modelled as `Int`. -/
structure TraceManager where
  Instructions : List TraceLine
  PrevLine : Option TraceLine
  CurrentIndex : Int
  totalLines : Int
  loadedRange : Int × Int
  deriving DecidableEq

/-- Go's bounds-checked list read used by `GetCurrent`/`GetLine`:
`nil` outside `[0, len)`. -/
def listGetI (l : List TraceLine) (i : Int) : Option TraceLine :=
  if 0 ≤ i then l.get? i.toNat else none

/-- `(tm *TraceManager) GetCurrent` (parse.go lines 40-45). -/
def GetCurrent (tm : TraceManager) : Option TraceLine :=
  listGetI tm.Instructions tm.CurrentIndex

/-- `(tm *TraceManager) GetLine` (parse.go lines 47-52). -/
def TMGetLine (tm : TraceManager) (index : Int) : Option TraceLine :=
  listGetI tm.Instructions index

/-- `(tm *TraceManager) Next` (parse.go lines 214-221): if the cursor
is before the last loaded record, cache the current record as
`PrevLine`, advance, and return true. -/
def Next (tm : TraceManager) : TraceManager × Bool :=
  if tm.CurrentIndex < (tm.Instructions.length : Int) - 1 then
    ({ tm with PrevLine := GetCurrent tm, CurrentIndex := tm.CurrentIndex + 1 }, true)
  else (tm, false)

/-- `(tm *TraceManager) Prev` (parse.go lines 223-235): retreat the
cursor; `PrevLine` is re-read with a direct (unchecked above) index
`Instructions[CurrentIndex-1]`, so an index at or beyond the loaded
length is a Go panic, modelled as `none`. -/
def Prev (tm : TraceManager) : Option (TraceManager × Bool) :=
  if 0 < tm.CurrentIndex then
    if 0 ≤ tm.CurrentIndex - 1 - 1 then
      match listGetI tm.Instructions (tm.CurrentIndex - 1 - 1) with
      | some r => some ({ tm with CurrentIndex := tm.CurrentIndex - 1, PrevLine := some r }, true)
      | none => none
    else some ({ tm with CurrentIndex := tm.CurrentIndex - 1, PrevLine := none }, true)
  else some (tm, false)

/-- `(tm *TraceManager) GoTo` (parse.go lines 237-255): for a target in
`[0, totalLines)` the code only notes that a reload would be needed
when the target is outside `loadedRange` (the branch body is empty),
sets `PrevLine` through the bounds-checked `GetLine`, moves the cursor
and returns true; otherwise it returns false. -/
def GoTo (tm : TraceManager) (index : Int) : TraceManager × Bool :=
  if 0 ≤ index ∧ index < tm.totalLines then
    ({ tm with
        PrevLine := if 0 ≤ index - 1 then TMGetLine tm (index - 1) else none,
        CurrentIndex := index }, true)
  else (tm, false)

/-- `(tm *TraceManager) AddInstruction` (parse.go lines 258-261):
append the record and set `totalLines` to the new length of
`Instructions`. -/
def AddInstruction (tm : TraceManager) (t : TraceLine) : TraceManager :=
  { tm with
      Instructions := tm.Instructions ++ [t],
      totalLines := ((tm.Instructions ++ [t]).length : Int) }

/-- A cursor operation on the manager. -/
inductive TMOp where
  | next
  | prev
  | goto (i : Int)

/-- One cursor operation; `none` is a Go panic. -/
def stepTM (tm : TraceManager) : TMOp → Option TraceManager
  | TMOp.next => some (Next tm).1
  | TMOp.prev => (Prev tm).map Prod.fst
  | TMOp.goto i => some (GoTo tm i).1

/-- Run a sequence of cursor operations; `none` if any step panics. -/
def runTM : TraceManager → List TMOp → Option TraceManager
  | tm, [] => some tm
  | tm, op :: ops =>
    match stepTM tm op with
    | none => none
    | some tm2 => runTM tm2 ops

/-- The documented invariant tying the previous-record cache to the
cursor: `PrevLine` is nil exactly at position 0. -/
def prevCacheInv (tm : TraceManager) : Bool :=
  tm.PrevLine.isNone == (tm.CurrentIndex == 0)

/-- `prevCacheInv` read through an optional run result (a panicking run
produces no state to check). -/
def runInvB : Option TraceManager → Bool
  | none => true
  | some tm => prevCacheInv tm

/-! ## The prefetching file cache (cache.go, FileCache) -/

/-- Cache-map lookup (`fc.cache[index]`), on the association-list model
of the Go map. -/
def lookupC : List (Int × TraceLine) → Int → Option TraceLine
  | [], _ => none
  | (k, v) :: rest, i => if k = i then some v else lookupC rest i

/-- Cache-map membership test (`_, exists := fc.cache[i]`). -/
def containsK (c : List (Int × TraceLine)) (i : Int) : Bool :=
  (lookupC c i).isSome

/-- Cache-map assignment (`fc.cache[index] = line`): overwrite the
existing binding or add a new one. -/
def mapInsert : List (Int × TraceLine) → Int → TraceLine → List (Int × TraceLine)
  | [], k, v => [(k, v)]
  | (k0, v0) :: rest, k, v =>
    if k0 = k then (k, v) :: rest else (k0, v0) :: mapInsert rest k v

/-- `evictOldEntries` (cache.go lines 214-226): delete entries (in the
map's arbitrary iteration order, here the list order — all the
theorems below are order-independent) until the size is at most
`cacheSize / 2`. -/
def evictLoop : List (Int × TraceLine) → Nat → List (Int × TraceLine)
  | [], _ => []
  | x :: xs, target =>
    if (x :: xs).length ≤ target then x :: xs else evictLoop xs target

/-- The insertion step shared by `GetLine` (cache.go lines 112-119) and
`prefetchAround` (lines 200-207): assign, then evict synchronously if
the size now exceeds `cacheSize`. -/
def insertAndMaybeEvict (cap : Nat) (c : List (Int × TraceLine)) (k : Int) (v : TraceLine) :
    List (Int × TraceLine) :=
  let c1 := mapInsert c k v
  if cap < c1.length then evictLoop c1 (cap / 2) else c1

/-- `loadLineFromFile` (cache.go lines 132-162), with the file content
abstracted as the list of its lines (`linePositions` has one entry per
line, so the bounds check is against the line count).  The outer
`none` is a Go panic propagating out of `ParseLine`; `some none` is the
function's `nil` result (out of range, or a logged parse error). -/
def loadLineFromFile (lines : List String) (i : Int) : Option (Option TraceLine) :=
  if 0 ≤ i ∧ i.toNat < lines.length then
    match ParseLine (lines.getD i.toNat "") with
    | ParseOutcome.ok t => some (some t)
    | ParseOutcome.err _ => some none
    | ParseOutcome.panic => none
  else some none

/-- `(fc *FileCache) GetLine` (cache.go lines 84-129), as a transition
on the cache map: `nil` outside `[0, totalLines)`; a hit returns the
cached record; a miss loads from the file, returning `nil` on a failed
load, and otherwise inserts (evicting synchronously if over capacity).
The enqueue on the prefetch channel is best-effort and is modelled at
the operation level by `CacheOp.prefetch` steps.  The outer `none` is
a propagated panic. -/
def CGetLine (lines : List String) (cap : Nat) (c : List (Int × TraceLine)) (i : Int) :
    Option (List (Int × TraceLine) × Option TraceLine) :=
  if i < 0 ∨ (lines.length : Int) ≤ i then some (c, none)
  else
    match lookupC c i with
    | some line => some (c, some line)
    | none =>
      match loadLineFromFile lines i with
      | none => none
      | some none => some (c, none)
      | some (some line) => some (insertAndMaybeEvict cap c i line, some line)

/-- The window start computed by `prefetchAround` (cache.go lines
181-184): `index - prefetchWindow/2`, clamped below at 0. -/
def prefetchStart (w : Nat) (t : Int) : Int :=
  max 0 (t - (w / 2 : Nat))

/-- The window end computed by `prefetchAround` (cache.go lines
185-188): `start + prefetchWindow`, clamped above at `totalLines`. -/
def prefetchEnd (w total : Nat) (t : Int) : Int :=
  min (prefetchStart w t + (w : Int)) (total : Int)

/-- The loop body of `prefetchAround` (cache.go lines 191-210) over
`count` consecutive line numbers starting at `i`: skip lines already
cached, load the others, and insert the successfully parsed ones
(evicting synchronously if over capacity).  Returns the final cache and
the list of line numbers actually loaded and inserted; `none` is a
propagated panic. -/
def prefetchLoop (lines : List String) (cap : Nat) :
    Nat → Int → List (Int × TraceLine) → Option (List (Int × TraceLine) × List Int)
  | 0, _, c => some (c, [])
  | n + 1, i, c =>
    if containsK c i = true then prefetchLoop lines cap n (i + 1) c
    else
      match loadLineFromFile lines i with
      | none => none
      | some none => prefetchLoop lines cap n (i + 1) c
      | some (some line) =>
        match prefetchLoop lines cap n (i + 1) (insertAndMaybeEvict cap c i line) with
        | none => none
        | some (c2, L) => some (c2, i :: L)

/-- `(fc *FileCache) prefetchAround` (cache.go lines 177-211). -/
def prefetchAround (lines : List String) (cap w : Nat) (c : List (Int × TraceLine)) (t : Int) :
    Option (List (Int × TraceLine) × List Int) :=
  prefetchLoop lines cap (prefetchEnd w lines.length t - prefetchStart w t).toNat
    (prefetchStart w t) c

/-- The neighborhood claimed by the specification for the prefetch
worker.  Modelled from the spec: `[touched - window/2, touched +
window/2)` clipped to `[0, totalLines)` — to be compared with the
window the code actually computes. -/
def claimNeighborhood (w total : Nat) (t : Int) : Int × Int :=
  (max 0 (t - (w / 2 : Nat)), min (t + (w / 2 : Nat)) (total : Int))

/-- A foreground `GetLine` call or a prefetch-worker pass for a touched
line. -/
inductive CacheOp where
  | get (i : Int)
  | prefetch (i : Int)

/-- One cache operation, as a transition on the cache map. -/
def stepOp (lines : List String) (cap w : Nat) (c : List (Int × TraceLine)) :
    CacheOp → Option (List (Int × TraceLine))
  | CacheOp.get i =>
    match CGetLine lines cap c i with
    | none => none
    | some (c2, _) => some c2
  | CacheOp.prefetch i =>
    match prefetchAround lines cap w c i with
    | none => none
    | some (c2, _) => some c2

/-- Run a sequence of cache operations from a cache state. -/
def runOps (lines : List String) (cap w : Nat) :
    List (Int × TraceLine) → List CacheOp → Option (List (Int × TraceLine))
  | c, [] => some c
  | c, op :: ops =>
    match stepOp lines cap w c op with
    | none => none
    | some c2 => runOps lines cap w c2 ops

/-- Size of an optional cache state (0 when the run panicked). -/
def cacheLen : Option (List (Int × TraceLine)) → Nat
  | none => 0
  | some c => c.length

/-! ## Predicates used to state the claims -/

/-- All numeric fields of a 37-field line parse: field 0 as base-16
32-bit, fields 1, 2, 4..32 (registers 0..28), 33, 34 (registers 29,
30), 35 (sp) and 36 (pc) as base-detected 64-bit. -/
def numericsOK (fs : List (List Char)) : Prop :=
  (parseUint (trimSpace (fs.getD 0 [])) 16 32).isSome = true ∧
  (parseUint (trimSpace (fs.getD 1 [])) 0 64).isSome = true ∧
  (parseUint (trimSpace (fs.getD 2 [])) 0 64).isSome = true ∧
  (∀ j, j < 29 → (parseUint (trimSpace (fs.getD (4 + j) [])) 0 64).isSome = true) ∧
  (parseUint (trimSpace (fs.getD 33 [])) 0 64).isSome = true ∧
  (parseUint (trimSpace (fs.getD 34 [])) 0 64).isSome = true ∧
  (parseUint (trimSpace (fs.getD 35 [])) 0 64).isSome = true ∧
  (parseUint (trimSpace (fs.getD 36 [])) 0 64).isSome = true

instance numericsOK.decidable (fs : List (List Char)) : Decidable (numericsOK fs) := by
  unfold numericsOK
  infer_instance

/-- An error of `ParseLine` names the thing that actually failed: the
count error carries the observed (non-37) field count, and every other
error names a field or register whose numeric parse fails. -/
def errNamesFailedField (fs : List (List Char)) : FErr → Prop
  | FErr.fieldCount n => n = fs.length ∧ n ≠ 37
  | FErr.step => parseUint (trimSpace (fs.getD 0 [])) 16 32 = none
  | FErr.addr => parseUint (trimSpace (fs.getD 1 [])) 0 64 = none
  | FErr.offset => parseUint (trimSpace (fs.getD 2 [])) 0 64 = none
  | FErr.reg i =>
      (i < 29 ∧ parseUint (trimSpace (fs.getD (4 + i) [])) 0 64 = none) ∨
      (i = 29 ∧ parseUint (trimSpace (fs.getD 33 [])) 0 64 = none) ∨
      (i = 30 ∧ parseUint (trimSpace (fs.getD 34 [])) 0 64 = none)
  | FErr.sp => parseUint (trimSpace (fs.getD 35 [])) 0 64 = none
  | FErr.pc => parseUint (trimSpace (fs.getD 36 [])) 0 64 = none

/-- State invariant of the windowed manager used for the cursor
claims: the previous-record cache is empty exactly at position 0, the
cursor is in range, and the file is fully loaded (`totalLines` within
the loaded slice). -/
def tmInv (tm : TraceManager) : Prop :=
  (tm.PrevLine = none ↔ tm.CurrentIndex = 0) ∧
  0 ≤ tm.CurrentIndex ∧
  (tm.CurrentIndex < (tm.Instructions.length : Int) ∨
    (tm.Instructions.length = 0 ∧ tm.CurrentIndex = 0)) ∧
  tm.totalLines ≤ (tm.Instructions.length : Int)

/-! ## Concrete inputs used by witnesses and counterexamples -/

/-- A well-formed 37-field line with distinct values in every numeric
field (step `a` hex = 10, address `0x10` = 16, offset 7, registers
0..30, sp 100, pc `0x200` = 512). -/
def lineW : String :=
  "a|0x10|7|\"nop\"|0|1|2|3|4|5|6|7|8|9|10|11|12|13|14|15|16|17|18|19|20|21|22|23|24|25|26|27|28|29|30|100|0x200"

/-- The record `ParseLine` produces for `lineW`. -/
def recW : TraceLine :=
  { Step := 10, Addr := 16, Offset := 7, Instr := "nop",
    Regs := [0, 1, 2, 3, 4, 5, 6, 7, 8, 9, 10, 11, 12, 13, 14, 15, 16, 17, 18,
             19, 20, 21, 22, 23, 24, 25, 26, 27, 28, 29, 30],
    SP := 100, PC := 512 }

/-- A 37-field line whose numeric fields all parse but whose
instruction field is the single character `'"'`. -/
def lineC1 : String :=
  "1|2|3|\"|5|5|5|5|5|5|5|5|5|5|5|5|5|5|5|5|5|5|5|5|5|5|5|5|5|5|5|5|5|5|5|5|5"

/-- A 37-field line with the single-quote instruction field and a
malformed register field (`z` for register 5, field 9). -/
def lineC2 : String :=
  "0|0|0|\"|0|0|0|0|0|z|0|0|0|0|0|0|0|0|0|0|0|0|0|0|0|0|0|0|0|0|0|0|0|0|0|0|0"

/-- A 37-field line whose instruction field trims to exactly `'"'`. -/
def lineC3 : String :=
  "0|0|0|\"|0|0|0|0|0|0|0|0|0|0|0|0|0|0|0|0|0|0|0|0|0|0|0|0|0|0|0|0|0|0|0|0|0"

/-- A 37-field line with a well-formed instruction field but a
malformed register field (`z` for register 5, field 9). -/
def lineR : String :=
  "0|0|0|ok|0|0|0|0|0|z|0|0|0|0|0|0|0|0|0|0|0|0|0|0|0|0|0|0|0|0|0|0|0|0|0|0|0"

/-- An all-zero well-formed 37-field line. -/
def zline : String :=
  "0|0|0|0|0|0|0|0|0|0|0|0|0|0|0|0|0|0|0|0|0|0|0|0|0|0|0|0|0|0|0|0|0|0|0|0|0"

/-- The record `ParseLine` produces for `zline`. -/
def zrec : TraceLine :=
  { Step := 0, Addr := 0, Offset := 0, Instr := "0",
    Regs := List.replicate 31 0, SP := 0, PC := 0 }

/-- A four-line file of well-formed lines. -/
def lines4 : List String := [zline, zline, zline, zline]

/-- A one-line file whose single line is malformed (one field). -/
def linesBad : List String := ["x"]

/-- A record with a given step value and zeros elsewhere. -/
def mkRec (n : Nat) : TraceLine :=
  { Step := n, Addr := 0, Offset := 0, Instr := "",
    Regs := List.replicate 31 0, SP := 0, PC := 0 }

/-- A manager for a fully loaded 10-line file at cursor 0. -/
def tm10 : TraceManager :=
  { Instructions := (List.range 10).map mkRec, PrevLine := none, CurrentIndex := 0,
    totalLines := 10, loadedRange := (0, 10) }

/-- A manager on a 10-line file whose loaded window is `[0, 4)`,
at cursor 0 with an empty previous-record cache. -/
def tmWin : TraceManager :=
  { Instructions := (List.range 4).map mkRec, PrevLine := none, CurrentIndex := 0,
    totalLines := 10, loadedRange := (0, 4) }

/-! ## Parser lemmas -/

/-- If the register loop succeeds, every register field it covered
parses. -/
lemma parseRegsAux_ok_all {fs : List (List Char)} :
    ∀ {n i : Nat} {rs : List Nat}, parseRegsAux fs n i = Except.ok rs →
      ∀ j, j < n → (parseUint (trimSpace (fs.getD (4 + (i + j)) [])) 0 64).isSome = true := by
  intro n
  induction n with
  | zero => intro i rs _ j hj; exact absurd hj (Nat.not_lt_zero j)
  | succ n ih =>
    intro i rs h j hj
    unfold parseRegsAux at h
    rcases h0 : parseUint (trimSpace (fs.getD (4 + i) [])) 0 64 with _ | v
    · rw [h0] at h; exact Except.noConfusion h
    · rw [h0] at h
      rcases h1 : parseRegsAux fs n (i + 1) with j' | vs
      · rw [h1] at h; exact Except.noConfusion h
      · cases j with
        | zero => simpa using congrArg Option.isSome h0
        | succ j =>
          have hr := ih h1 j (by omega)
          have heq : 4 + (i + 1 + j) = 4 + (i + (j + 1)) := by omega
          rw [heq] at hr
          exact hr

/-- If the register loop fails, it reports an in-range register index
whose field does not parse. -/
lemma parseRegsAux_error_spec {fs : List (List Char)} :
    ∀ {n i j : Nat}, parseRegsAux fs n i = Except.error j →
      i ≤ j ∧ j < i + n ∧ parseUint (trimSpace (fs.getD (4 + j) [])) 0 64 = none := by
  intro n
  induction n with
  | zero => intro i j h; exact Except.noConfusion h
  | succ n ih =>
    intro i j h
    unfold parseRegsAux at h
    rcases h0 : parseUint (trimSpace (fs.getD (4 + i) [])) 0 64 with _ | v
    · rw [h0] at h
      have hij : i = j := Except.error.inj h
      subst hij
      exact ⟨Nat.le_refl i, by omega, h0⟩
    · rw [h0] at h
      rcases h1 : parseRegsAux fs n (i + 1) with j' | vs
      · rw [h1] at h
        have hj : j' = j := Except.error.inj h
        subst hj
        have := ih h1
        exact ⟨by omega, by omega, this.2.2⟩
      · rw [h1] at h; exact Except.noConfusion h

/-- If `parseTail` returns a record, every numeric field it examined
parses. -/
lemma parseTail_ok_nums {fs : List (List Char)} {s a o : Nat} {ins : List Char} {t : TraceLine}
    (h : parseTail fs s a o ins = ParseOutcome.ok t) :
    (∀ j, j < 29 → (parseUint (trimSpace (fs.getD (4 + j) [])) 0 64).isSome = true) ∧
    (parseUint (trimSpace (fs.getD 33 [])) 0 64).isSome = true ∧
    (parseUint (trimSpace (fs.getD 34 [])) 0 64).isSome = true ∧
    (parseUint (trimSpace (fs.getD 35 [])) 0 64).isSome = true ∧
    (parseUint (trimSpace (fs.getD 36 [])) 0 64).isSome = true := by
  unfold parseTail at h
  rcases hr : parseRegsAux fs 29 0 with i | rs
  · rw [hr] at h; exact ParseOutcome.noConfusion h
  rw [hr] at h
  rcases h33 : parseUint (trimSpace (fs.getD 33 [])) 0 64 with _ | r29
  · rw [h33] at h; exact ParseOutcome.noConfusion h
  rw [h33] at h
  rcases h34 : parseUint (trimSpace (fs.getD 34 [])) 0 64 with _ | r30
  · rw [h34] at h; exact ParseOutcome.noConfusion h
  rw [h34] at h
  rcases h35 : parseUint (trimSpace (fs.getD 35 [])) 0 64 with _ | sp
  · rw [h35] at h; exact ParseOutcome.noConfusion h
  rw [h35] at h
  rcases h36 : parseUint (trimSpace (fs.getD 36 [])) 0 64 with _ | pc
  · rw [h36] at h; exact ParseOutcome.noConfusion h
  refine ⟨fun j hj => ?_, by simp [h33], by simp [h34], by simp [h35], by simp [h36]⟩
  have := parseRegsAux_ok_all hr j hj
  simpa using this

/-- If `parseTail` returns an error, the error names a field whose
parse fails. -/
lemma parseTail_err_names {fs : List (List Char)} {s a o : Nat} {ins : List Char} {e : FErr}
    (h : parseTail fs s a o ins = ParseOutcome.err e) :
    errNamesFailedField fs e := by
  unfold parseTail at h
  rcases hr : parseRegsAux fs 29 0 with i | rs
  · rw [hr] at h
    have he : FErr.reg i = e := ParseOutcome.err.inj h
    subst he
    have := parseRegsAux_error_spec hr
    exact Or.inl ⟨by omega, this.2.2⟩
  rw [hr] at h
  rcases h33 : parseUint (trimSpace (fs.getD 33 [])) 0 64 with _ | r29
  · rw [h33] at h
    have he : FErr.reg 29 = e := ParseOutcome.err.inj h
    subst he
    exact Or.inr (Or.inl ⟨rfl, h33⟩)
  rw [h33] at h
  rcases h34 : parseUint (trimSpace (fs.getD 34 [])) 0 64 with _ | r30
  · rw [h34] at h
    have he : FErr.reg 30 = e := ParseOutcome.err.inj h
    subst he
    exact Or.inr (Or.inr ⟨rfl, h34⟩)
  rw [h34] at h
  rcases h35 : parseUint (trimSpace (fs.getD 35 [])) 0 64 with _ | sp
  · rw [h35] at h
    have he : FErr.sp = e := ParseOutcome.err.inj h
    subst he
    exact h35
  rw [h35] at h
  rcases h36 : parseUint (trimSpace (fs.getD 36 [])) 0 64 with _ | pc
  · rw [h36] at h
    have he : FErr.pc = e := ParseOutcome.err.inj h
    subst he
    exact h36
  · rw [h36] at h; exact ParseOutcome.noConfusion h

/-- `parseTail` never panics: its only outcomes are a record or an
error. -/
lemma parseTail_ne_panic (fs : List (List Char)) (s a o : Nat) (ins : List Char) :
    parseTail fs s a o ins ≠ ParseOutcome.panic := by
  unfold parseTail
  rcases hr : parseRegsAux fs 29 0 with i | rs
  · exact fun h => ParseOutcome.noConfusion h
  rcases h33 : parseUint (trimSpace (fs.getD 33 [])) 0 64 with _ | r29
  · exact fun h => ParseOutcome.noConfusion h
  rcases h34 : parseUint (trimSpace (fs.getD 34 [])) 0 64 with _ | r30
  · exact fun h => ParseOutcome.noConfusion h
  rcases h35 : parseUint (trimSpace (fs.getD 35 [])) 0 64 with _ | sp
  · exact fun h => ParseOutcome.noConfusion h
  rcases h36 : parseUint (trimSpace (fs.getD 36 [])) 0 64 with _ | pc
  · exact fun h => ParseOutcome.noConfusion h
  · exact fun h => ParseOutcome.noConfusion h

/-- With a wrong field count, `ParseLine` is the count error. -/
lemma ParseLine_eq_count (line : String) (h : (splitFields line.data).length ≠ 37) :
    ParseLine line = ParseOutcome.err (FErr.fieldCount (splitFields line.data).length) := by
  unfold ParseLine
  rw [if_pos h]

/-- With 37 fields, `ParseLine` is the field cascade. -/
lemma ParseLine_eq_body (line : String) (h : (splitFields line.data).length = 37) :
    ParseLine line = parseAfterCount (splitFields line.data) := by
  unfold ParseLine
  rw [if_neg (by simp [h])]

/-- C1 (amended): for every line that splits on `'|'` into exactly 37
fields, all of whose numeric fields parse, and whose trimmed
instruction field survives quote stripping (it is not the lone
character `'"'`), `ParseLine` returns a record whose fields are the
decoded inputs under the documented layout: field 0 as base-16 32-bit
into `Step`; fields 1 and 2 base-detected 64-bit into `Addr` and
`Offset`; fields 4..32 into registers 0..28; fields 33 and 34 into
registers 29 and 30; field 35 into `SP`; field 36 into `PC`. -/
theorem parseline_layout (line : String) (fs : List (List Char))
    (hfs : splitFields line.data = fs) (hlen : fs.length = 37)
    (stepv : Nat) (hstep : parseUint (trimSpace (fs.getD 0 [])) 16 32 = some stepv)
    (addr : Nat) (haddr : parseUint (trimSpace (fs.getD 1 [])) 0 64 = some addr)
    (off : Nat) (hoff : parseUint (trimSpace (fs.getD 2 [])) 0 64 = some off)
    (instr : List Char) (hinstr : stripQuotes (trimSpace (fs.getD 3 [])) = some instr)
    (rs : List Nat) (hrs : parseRegsAux fs 29 0 = Except.ok rs)
    (r29 : Nat) (h29 : parseUint (trimSpace (fs.getD 33 [])) 0 64 = some r29)
    (r30 : Nat) (h30 : parseUint (trimSpace (fs.getD 34 [])) 0 64 = some r30)
    (sp : Nat) (hsp : parseUint (trimSpace (fs.getD 35 [])) 0 64 = some sp)
    (pc : Nat) (hpc : parseUint (trimSpace (fs.getD 36 [])) 0 64 = some pc) :
    ParseLine line = ParseOutcome.ok
      { Step := stepv, Addr := addr, Offset := off, Instr := ⟨instr⟩,
        Regs := rs ++ [r29, r30], SP := sp, PC := pc } := by
  subst hfs
  rw [ParseLine_eq_body line hlen]
  unfold parseAfterCount
  rw [hstep, haddr, hoff, hinstr]
  unfold parseTail
  rw [hrs, h29, h30, hsp, hpc]

/-- Witness for C1: `ParseLine` on a concrete well-formed line with
distinct numeric values yields exactly the record laid out by the
documented field mapping. -/
theorem parseline_layout_witness : ParseLine lineW = ParseOutcome.ok recW :=
  parseline_layout lineW (splitFields lineW.data) rfl (by decide)
    10 (by decide) 16 (by decide) 7 (by decide) "nop".data (by decide)
    [0, 1, 2, 3, 4, 5, 6, 7, 8, 9, 10, 11, 12, 13, 14, 15, 16, 17, 18, 19, 20,
     21, 22, 23, 24, 25, 26, 27, 28] rfl
    29 (by decide) 30 (by decide) 100 (by decide) 512 (by decide)

/-- Counterexample to C1 as stated: `lineC1` splits into exactly 37
fields and every numeric field parses, yet `ParseLine` returns no
record (the single-quote instruction field makes it panic). -/
theorem parseline_layout_cex :
    (splitFields lineC1.data).length = 37 ∧ numericsOK (splitFields lineC1.data) ∧
    pIsOk (ParseLine lineC1) = false ∧ ParseLine lineC1 = ParseOutcome.panic := by
  refine ⟨by decide, ⟨by decide, by decide, by decide, fun j hj => ?_, by decide,
    by decide, by decide, by decide⟩, by decide, by decide⟩
  interval_cases j <;> decide

/-- C3: `ParseLine` is not total.  On `lineC3` — a 37-field line whose
instruction field trims to the single character `'"'`, satisfying both
the leading-quote and trailing-quote checks — the slice `s[1:0]`
panics instead of returning a record or an error. -/
theorem parseline_quote_panics :
    ParseLine lineC3 = ParseOutcome.panic ∧
    (splitFields lineC3.data).length = 37 ∧
    trimSpace ((splitFields lineC3.data).getD 3 []) = ['"'] ∧
    pIsOk (ParseLine lineC3) = false ∧ pIsErr (ParseLine lineC3) = false := by
  refine ⟨by decide, by decide, by decide, by decide, by decide⟩

/-- C2 (amended): `ParseLine` returns a record only for lines with
exactly 37 pipe-delimited fields all of whose numeric fields parse; a
wrong field count yields the error carrying the observed count; every
error it returns names the specific failed field or register index;
and — provided the trimmed instruction field is not the lone character
`'"'` — a 37-field line with any failing numeric field yields an error
and no record (the whole line is discarded). -/
theorem parseline_all_or_nothing (line : String) :
    (∀ t, ParseLine line = ParseOutcome.ok t →
      (splitFields line.data).length = 37 ∧ numericsOK (splitFields line.data)) ∧
    ((splitFields line.data).length ≠ 37 →
      ParseLine line = ParseOutcome.err (FErr.fieldCount (splitFields line.data).length)) ∧
    (∀ e, ParseLine line = ParseOutcome.err e →
      errNamesFailedField (splitFields line.data) e) ∧
    ((splitFields line.data).length = 37 →
      stripQuotes (trimSpace ((splitFields line.data).getD 3 [])) ≠ none →
      ¬ numericsOK (splitFields line.data) →
      pIsOk (ParseLine line) = false ∧ pIsErr (ParseLine line) = true) := by
  refine ⟨?_, ?_, ?_, ?_⟩
  · intro t hok
    by_cases h37 : (splitFields line.data).length = 37
    · refine ⟨h37, ?_⟩
      rw [ParseLine_eq_body line h37] at hok
      unfold parseAfterCount at hok
      rcases h0 : parseUint (trimSpace ((splitFields line.data).getD 0 [])) 16 32 with _ | s0
      · rw [h0] at hok; exact ParseOutcome.noConfusion hok
      rw [h0] at hok
      rcases h1 : parseUint (trimSpace ((splitFields line.data).getD 1 [])) 0 64 with _ | a1
      · rw [h1] at hok; exact ParseOutcome.noConfusion hok
      rw [h1] at hok
      rcases h2 : parseUint (trimSpace ((splitFields line.data).getD 2 [])) 0 64 with _ | o2
      · rw [h2] at hok; exact ParseOutcome.noConfusion hok
      rw [h2] at hok
      rcases h3 : stripQuotes (trimSpace ((splitFields line.data).getD 3 [])) with _ | ins
      · rw [h3] at hok; exact ParseOutcome.noConfusion hok
      rw [h3] at hok
      have hok2 : parseTail (splitFields line.data) s0 a1 o2 ins = ParseOutcome.ok t := hok
      have hn := parseTail_ok_nums hok2
      exact ⟨by rw [h0]; rfl, by rw [h1]; rfl, by rw [h2]; rfl, hn.1, hn.2.1, hn.2.2.1,
        hn.2.2.2.1, hn.2.2.2.2⟩
    · rw [ParseLine_eq_count line h37] at hok
      exact ParseOutcome.noConfusion hok
  · intro h37
    exact ParseLine_eq_count line h37
  · intro e herr
    by_cases h37 : (splitFields line.data).length = 37
    · rw [ParseLine_eq_body line h37] at herr
      unfold parseAfterCount at herr
      rcases h0 : parseUint (trimSpace ((splitFields line.data).getD 0 [])) 16 32 with _ | s0
      · rw [h0] at herr
        have he : FErr.step = e := ParseOutcome.err.inj herr
        subst he
        exact h0
      rw [h0] at herr
      rcases h1 : parseUint (trimSpace ((splitFields line.data).getD 1 [])) 0 64 with _ | a1
      · rw [h1] at herr
        have he : FErr.addr = e := ParseOutcome.err.inj herr
        subst he
        exact h1
      rw [h1] at herr
      rcases h2 : parseUint (trimSpace ((splitFields line.data).getD 2 [])) 0 64 with _ | o2
      · rw [h2] at herr
        have he : FErr.offset = e := ParseOutcome.err.inj herr
        subst he
        exact h2
      rw [h2] at herr
      rcases h3 : stripQuotes (trimSpace ((splitFields line.data).getD 3 [])) with _ | ins
      · rw [h3] at herr; exact ParseOutcome.noConfusion herr
      rw [h3] at herr
      have herr2 : parseTail (splitFields line.data) s0 a1 o2 ins = ParseOutcome.err e := herr
      exact parseTail_err_names herr2
    · rw [ParseLine_eq_count line h37] at herr
      have he : FErr.fieldCount (splitFields line.data).length = e := ParseOutcome.err.inj herr
      subst he
      exact ⟨rfl, h37⟩
  · intro h37 hstrip hnums
    rw [ParseLine_eq_body line h37]
    unfold parseAfterCount
    rcases h0 : parseUint (trimSpace ((splitFields line.data).getD 0 [])) 16 32 with _ | s0
    · exact ⟨rfl, rfl⟩
    rcases h1 : parseUint (trimSpace ((splitFields line.data).getD 1 [])) 0 64 with _ | a1
    · exact ⟨rfl, rfl⟩
    rcases h2 : parseUint (trimSpace ((splitFields line.data).getD 2 [])) 0 64 with _ | o2
    · exact ⟨rfl, rfl⟩
    rcases h3 : stripQuotes (trimSpace ((splitFields line.data).getD 3 [])) with _ | ins
    · exact absurd h3 hstrip
    show pIsOk (parseTail (splitFields line.data) s0 a1 o2 ins) = false ∧
      pIsErr (parseTail (splitFields line.data) s0 a1 o2 ins) = true
    rcases hpt : parseTail (splitFields line.data) s0 a1 o2 ins with t | e
    · exfalso
      apply hnums
      have hn := parseTail_ok_nums hpt
      exact ⟨by rw [h0]; rfl, by rw [h1]; rfl, by rw [h2]; rfl, hn.1, hn.2.1, hn.2.2.1,
        hn.2.2.2.1, hn.2.2.2.2⟩
    · exact ⟨rfl, rfl⟩
    · exact absurd hpt (parseTail_ne_panic _ _ _ _ _)

/-- Witness for C2: on a 2-field line the error carries the observed
count 2; on a 37-field line with a malformed register 5 and an
ordinary instruction field, the whole line yields an error and no
record. -/
theorem parseline_all_or_nothing_witness :
    ParseLine "x|y" = ParseOutcome.err (FErr.fieldCount 2) ∧
    (pIsOk (ParseLine lineR) = false ∧ pIsErr (ParseLine lineR) = true) :=
  ⟨(parseline_all_or_nothing "x|y").2.1 (by decide),
   (parseline_all_or_nothing lineR).2.2.2 (by decide) (by decide) (by decide)⟩

/-- Counterexample to C2 as stated: `lineC2` has 37 fields and a
malformed register field (register 5), so the claim demands an error
naming that register; instead `ParseLine` panics (the single-quote
instruction field is reached first), returning neither a record nor an
error. -/
theorem parseline_all_or_nothing_cex :
    (splitFields lineC2.data).length = 37 ∧
    parseUint (trimSpace ((splitFields lineC2.data).getD 9 [])) 0 64 = none ∧
    ParseLine lineC2 = ParseOutcome.panic ∧
    pIsOk (ParseLine lineC2) = false ∧ pIsErr (ParseLine lineC2) = false := by
  refine ⟨by decide, by decide, by decide, by decide, by decide⟩

/-! ## Cache lemmas -/

/-- Eviction stops exactly at the target when it has to evict. -/
lemma evictLoop_length (l : List (Int × TraceLine)) (t : Nat) :
    (evictLoop l t).length = min l.length t := by
  induction l with
  | nil => simp [evictLoop]
  | cons x xs ih =>
    unfold evictLoop
    by_cases h : (x :: xs).length ≤ t
    · rw [if_pos h]; omega
    · rw [if_neg h]
      rw [ih]
      simp only [List.length_cons] at h ⊢
      omega

/-- Eviction only removes entries. -/
lemma evictLoop_subset {l : List (Int × TraceLine)} {t : Nat} :
    ∀ e ∈ evictLoop l t, e ∈ l := by
  induction l with
  | nil => simp [evictLoop]
  | cons x xs ih =>
    unfold evictLoop
    by_cases h : (x :: xs).length ≤ t
    · rw [if_pos h]; exact fun e he => he
    · rw [if_neg h]; exact fun e he => List.mem_cons_of_mem x (ih e he)

/-- A key absent before eviction is absent after it. -/
lemma evictLoop_lookup_none {l : List (Int × TraceLine)} {t : Nat} {i : Int}
    (h : lookupC l i = none) : lookupC (evictLoop l t) i = none := by
  induction l with
  | nil => simpa [evictLoop] using h
  | cons x xs ih =>
    rcases x with ⟨k, v⟩
    unfold evictLoop
    by_cases hle : ((k, v) :: xs).length ≤ t
    · rw [if_pos hle]; exact h
    · rw [if_neg hle]
      apply ih
      unfold lookupC at h
      by_cases hk : k = i
      · rw [if_pos hk] at h; exact Option.noConfusion h
      · rw [if_neg hk] at h; exact h

/-- Map assignment grows the map by at most one entry. -/
lemma mapInsert_length_le (c : List (Int × TraceLine)) (k : Int) (v : TraceLine) :
    (mapInsert c k v).length ≤ c.length + 1 := by
  induction c with
  | nil => simp [mapInsert]
  | cons x xs ih =>
    rcases x with ⟨k0, v0⟩
    unfold mapInsert
    by_cases h : k0 = k
    · rw [if_pos h]; simp
    · rw [if_neg h]
      simp only [List.length_cons]
      omega

/-- Map assignment does not touch other keys. -/
lemma mapInsert_lookup_ne {c : List (Int × TraceLine)} {k : Int} {v : TraceLine} {j : Int}
    (h : j ≠ k) : lookupC (mapInsert c k v) j = lookupC c j := by
  induction c with
  | nil =>
    unfold mapInsert lookupC
    rw [if_neg (fun hh => h hh.symm)]
    rfl
  | cons x xs ih =>
    rcases x with ⟨k0, v0⟩
    unfold mapInsert
    by_cases h0 : k0 = k
    · rw [if_pos h0]
      unfold lookupC
      rw [if_neg (fun hh => h hh.symm), if_neg (by rw [h0]; exact fun hh => h hh.symm)]
    · rw [if_neg h0]
      unfold lookupC
      by_cases h1 : k0 = j
      · rw [if_pos h1, if_pos h1]
      · rw [if_neg h1, if_neg h1]; exact ih

/-- The shared insert-then-evict step keeps the cache within capacity. -/
lemma insertAndMaybeEvict_length {cap : Nat} {c : List (Int × TraceLine)} {k : Int}
    {v : TraceLine} (h : c.length ≤ cap) : (insertAndMaybeEvict cap c k v).length ≤ cap := by
  unfold insertAndMaybeEvict
  by_cases hgt : cap < (mapInsert c k v).length
  · rw [if_pos hgt, evictLoop_length]
    have := Nat.div_le_self cap 2
    omega
  · rw [if_neg hgt]
    omega

/-- A key absent before an insert of a different key is absent after
the insert (and any eviction it triggers). -/
lemma insertAndMaybeEvict_lookup_none {cap : Nat} {c : List (Int × TraceLine)} {k : Int}
    {v : TraceLine} {j : Int} (hj : lookupC c j = none) (hne : j ≠ k) :
    lookupC (insertAndMaybeEvict cap c k v) j = none := by
  unfold insertAndMaybeEvict
  have hmi : lookupC (mapInsert c k v) j = none := by
    rw [mapInsert_lookup_ne hne]; exact hj
  by_cases hgt : cap < (mapInsert c k v).length
  · rw [if_pos hgt]; exact evictLoop_lookup_none hmi
  · rw [if_neg hgt]; exact hmi

/-- `GetLine` keeps the cache within capacity. -/
lemma CGetLine_length {lines : List String} {cap : Nat} {c : List (Int × TraceLine)} {i : Int}
    {c2 : List (Int × TraceLine)} {r : Option TraceLine}
    (h : CGetLine lines cap c i = some (c2, r)) (hc : c.length ≤ cap) : c2.length ≤ cap := by
  unfold CGetLine at h
  by_cases hr : i < 0 ∨ (lines.length : Int) ≤ i
  · rw [if_pos hr] at h
    simp only [Option.some.injEq, Prod.mk.injEq] at h
    rw [← h.1]; exact hc
  · rw [if_neg hr] at h
    rcases hlk : lookupC c i with _ | line
    · rw [hlk] at h
      rcases hl : loadLineFromFile lines i with _ | ol
      · rw [hl] at h; exact Option.noConfusion h
      rw [hl] at h
      rcases ol with _ | line
      · simp only [Option.some.injEq, Prod.mk.injEq] at h
        rw [← h.1]; exact hc
      · simp only [Option.some.injEq, Prod.mk.injEq] at h
        rw [← h.1]; exact insertAndMaybeEvict_length hc
    · rw [hlk] at h
      simp only [Option.some.injEq, Prod.mk.injEq] at h
      rw [← h.1]; exact hc

/-- The prefetch loop keeps the cache within capacity. -/
lemma prefetchLoop_length {lines : List String} {cap : Nat} :
    ∀ {n : Nat} {i : Int} {c c2 : List (Int × TraceLine)} {L : List Int},
      prefetchLoop lines cap n i c = some (c2, L) → c.length ≤ cap → c2.length ≤ cap := by
  intro n
  induction n with
  | zero =>
    intro i c c2 L h hc
    unfold prefetchLoop at h
    simp only [Option.some.injEq, Prod.mk.injEq] at h
    rw [← h.1]; exact hc
  | succ n ih =>
    intro i c c2 L h hc
    unfold prefetchLoop at h
    split at h
    · exact ih h hc
    · split at h
      · exact Option.noConfusion h
      · exact ih h hc
      · split at h
        · exact Option.noConfusion h
        · rename_i c3 L3 heq
          simp only [Option.some.injEq, Prod.mk.injEq] at h
          rw [← h.1]
          exact ih heq (insertAndMaybeEvict_length hc)

/-- Any sequence of cache operations keeps the cache within capacity. -/
lemma runOps_length {lines : List String} {cap w : Nat} :
    ∀ {ops : List CacheOp} {c c2 : List (Int × TraceLine)},
      runOps lines cap w c ops = some c2 → c.length ≤ cap → c2.length ≤ cap := by
  intro ops
  induction ops with
  | nil =>
    intro c c2 h hc
    unfold runOps at h
    rw [← Option.some.inj h]; exact hc
  | cons op ops ih =>
    intro c c2 h hc
    unfold runOps at h
    rcases hs : stepOp lines cap w c op with _ | c1
    · rw [hs] at h; exact Option.noConfusion h
    rw [hs] at h
    apply ih h
    unfold stepOp at hs
    split at hs
    · split at hs
      · exact Option.noConfusion hs
      · rename_i c2' r heq
        have hcc : c2' = c1 := Option.some.inj hs
        rw [← hcc]
        exact CGetLine_length heq hc
    · split at hs
      · exact Option.noConfusion hs
      · rename_i c2' L heq
        have hcc : c2' = c1 := Option.some.inj hs
        rw [← hcc]
        unfold prefetchAround at heq
        exact prefetchLoop_length heq hc

/-- Every line number the prefetch loop loads lies in the range it was
asked to scan, and its load succeeds. -/
lemma prefetchLoop_sound {lines : List String} {cap : Nat} :
    ∀ {n : Nat} {i : Int} {c c2 : List (Int × TraceLine)} {L : List Int},
      prefetchLoop lines cap n i c = some (c2, L) →
      ∀ j ∈ L, i ≤ j ∧ j < i + n ∧ ∃ r, loadLineFromFile lines j = some (some r) := by
  intro n
  induction n with
  | zero =>
    intro i c c2 L h j hj
    unfold prefetchLoop at h
    simp only [Option.some.injEq, Prod.mk.injEq] at h
    rw [← h.2] at hj
    simp at hj
  | succ n ih =>
    intro i c c2 L h j hj
    unfold prefetchLoop at h
    split at h
    · have hs := ih h j hj
      exact ⟨by omega, by omega, hs.2.2⟩
    · split at h
      · exact Option.noConfusion h
      · have hs := ih h j hj
        exact ⟨by omega, by omega, hs.2.2⟩
      · rename_i line heqload
        split at h
        · exact Option.noConfusion h
        · rename_i c3 L3 heq
          simp only [Option.some.injEq, Prod.mk.injEq] at h
          rw [← h.2] at hj
          rcases List.mem_cons.mp hj with hj0 | hjm
          · subst hj0
            exact ⟨le_refl j, by omega, line, heqload⟩
          · have hs := ih heq j hjm
            exact ⟨by omega, by omega, hs.2.2⟩

/-- Every line number in the scanned range that is uncached at entry
and loads successfully gets loaded by the prefetch loop. -/
lemma prefetchLoop_complete {lines : List String} {cap : Nat} :
    ∀ {n : Nat} {i : Int} {c c2 : List (Int × TraceLine)} {L : List Int} {j : Int},
      prefetchLoop lines cap n i c = some (c2, L) →
      lookupC c j = none → i ≤ j → j < i + n →
      (∃ r, loadLineFromFile lines j = some (some r)) → j ∈ L := by
  intro n
  induction n with
  | zero =>
    intro i c c2 L j _ _ hij hjn _
    omega
  | succ n ih =>
    intro i c c2 L j h hlk hij hjn hr
    unfold prefetchLoop at h
    split at h
    · rename_i hck
      have hne : j ≠ i := by
        intro hji
        subst hji
        unfold containsK at hck
        rw [hlk] at hck
        simp at hck
      exact ih h hlk (by omega) (by omega) hr
    · split at h
      · exact Option.noConfusion h
      · rename_i heqload
        have hne : j ≠ i := by
          intro hji
          subst hji
          rcases hr with ⟨r, hr2⟩
          rw [heqload] at hr2
          exact Option.noConfusion (Option.some.inj hr2)
        exact ih h hlk (by omega) (by omega) hr
      · rename_i line heqload
        split at h
        · exact Option.noConfusion h
        · rename_i c3 L3 heq
          simp only [Option.some.injEq, Prod.mk.injEq] at h
          by_cases hji : j = i
          · rw [← h.2, hji]
            exact List.mem_cons_self i L3
          · have hlk2 : lookupC (insertAndMaybeEvict cap c i line) j = none :=
              insertAndMaybeEvict_lookup_none hlk hji
            have := ih heq hlk2 (by omega) (by omega) hr
            rw [← h.2]
            exact List.mem_cons_of_mem i this

/-- C4: for a cache of capacity `cap`, after any sequence of `GetLine`
calls and prefetch passes starting from the empty cache, the cache
size never exceeds `cap`; and whenever an insertion makes the size
exceed `cap`, the synchronous eviction reduces it to exactly `cap / 2`,
removing (a subset of the) entries. -/
theorem cache_size_bounded :
    (∀ (lines : List String) (cap w : Nat) (ops : List CacheOp),
      cacheLen (runOps lines cap w [] ops) ≤ cap) ∧
    (∀ (cap : Nat) (c : List (Int × TraceLine)) (k : Int) (v : TraceLine),
      cap < (mapInsert c k v).length →
      insertAndMaybeEvict cap c k v = evictLoop (mapInsert c k v) (cap / 2) ∧
      (insertAndMaybeEvict cap c k v).length = cap / 2 ∧
      ∀ e ∈ insertAndMaybeEvict cap c k v, e ∈ mapInsert c k v) := by
  constructor
  · intro lines cap w ops
    rcases hr : runOps lines cap w [] ops with _ | c2
    · simp [cacheLen]
    · have := runOps_length hr (by simp)
      simpa [cacheLen] using this
  · intro cap c k v hgt
    have he : insertAndMaybeEvict cap c k v = evictLoop (mapInsert c k v) (cap / 2) := by
      unfold insertAndMaybeEvict
      rw [if_pos hgt]
    refine ⟨he, ?_, ?_⟩
    · rw [he, evictLoop_length]
      have := Nat.div_le_self cap 2
      omega
    · rw [he]
      exact fun e hme => evictLoop_subset e hme

/-- Witness for C4: on a concrete four-line file with capacity 1, two
`GetLine` calls leave at most one entry; a concrete over-capacity
insertion evicts down to `1 / 2 = 0` entries. -/
theorem cache_size_bounded_witness :
    cacheLen (runOps lines4 1 4 [] [CacheOp.get 0, CacheOp.get 1]) ≤ 1 ∧
    (insertAndMaybeEvict 1 [(0, zrec)] 1 zrec).length = 1 / 2 :=
  ⟨cache_size_bounded.1 lines4 1 4 [CacheOp.get 0, CacheOp.get 1],
   (cache_size_bounded.2 1 [(0, zrec)] 1 zrec (by decide)).2.1⟩

/-- C5: `GetLine` returns nil both for an index outside
`[0, totalLines)` and for an in-range uncached index whose line fails
to parse — the two cases produce the identical result `(c, none)`, so
a parse failure is indistinguishable to the caller from an
out-of-range request and never propagates as an error. -/
theorem getline_nil_cases (lines : List String) (cap : Nat)
    (c : List (Int × TraceLine)) (i : Int) :
    ((i < 0 ∨ (lines.length : Int) ≤ i) → CGetLine lines cap c i = some (c, none)) ∧
    (0 ≤ i → i < (lines.length : Int) → lookupC c i = none →
      (∃ e, ParseLine (lines.getD i.toNat "") = ParseOutcome.err e) →
      CGetLine lines cap c i = some (c, none)) := by
  constructor
  · intro hout
    unfold CGetLine
    rw [if_pos hout]
  · rintro h0 hlt hlk ⟨e, he⟩
    unfold CGetLine
    rw [if_neg (by omega)]
    rw [hlk]
    have hload : loadLineFromFile lines i = some none := by
      unfold loadLineFromFile
      rw [if_pos ⟨h0, by omega⟩, he]
    rw [hload]

/-- Witness for C5: on a one-line file whose line is malformed, an
out-of-range request and the request for the malformed line 0 both
return nil with the cache unchanged. -/
theorem getline_nil_cases_witness :
    CGetLine linesBad 10 [] 5 = some ([], none) ∧
    CGetLine linesBad 10 [] 0 = some ([], none) :=
  ⟨(getline_nil_cases linesBad 10 [] 5).1 (by decide),
   (getline_nil_cases linesBad 10 [] 0).2 (by decide) (by decide) rfl
     ⟨FErr.fieldCount 1, by decide⟩⟩

/-- C6 (amended): the prefetch worker scans exactly the window
`[start, min(start + window, totalLines))` where
`start = max(0, touched - window/2)` — when the window is clipped at 0
it keeps its full length by extending forward, rather than being the
claimed clipped `[touched - window/2, touched + window/2)` — and
within that window it loads exactly the lines that load successfully
and were not already cached. -/
theorem prefetch_warms_code_window (lines : List String) (cap w : Nat)
    (c0 : List (Int × TraceLine)) (t : Int) (c2 : List (Int × TraceLine)) (L : List Int)
    (hrun : prefetchAround lines cap w c0 t = some (c2, L)) :
    (∀ j ∈ L, prefetchStart w t ≤ j ∧ j < prefetchEnd w lines.length t ∧
      ∃ r, loadLineFromFile lines j = some (some r)) ∧
    (∀ j : Int, prefetchStart w t ≤ j → j < prefetchEnd w lines.length t →
      lookupC c0 j = none → (∃ r, loadLineFromFile lines j = some (some r)) → j ∈ L) := by
  unfold prefetchAround at hrun
  constructor
  · intro j hj
    obtain ⟨h1, h2, h3⟩ := prefetchLoop_sound hrun j hj
    exact ⟨h1, by omega, h3⟩
  · intro j hjs hje hlk hr
    exact prefetchLoop_complete hrun hlk hjs (by omega) hr

/-- Witness for C6: prefetching around line 0 of a four-line file with
window 4 from an empty cache loads lines 0..3; line 2 is among them. -/
theorem prefetch_warms_code_window_witness :
    prefetchAround lines4 100 4 [] 0 =
      some ([(0, zrec), (1, zrec), (2, zrec), (3, zrec)], [0, 1, 2, 3]) ∧
    (2 : Int) ∈ ([0, 1, 2, 3] : List Int) :=
  ⟨by decide,
   (prefetch_warms_code_window lines4 100 4 [] 0
      [(0, zrec), (1, zrec), (2, zrec), (3, zrec)] [0, 1, 2, 3] (by decide)).2
     2 (by decide) (by decide) rfl ⟨zrec, by decide⟩⟩

/-- Counterexample to C6 as stated: with window 4, touched line 0 and
a four-line file, the worker warms lines 0..3, but the claimed
neighborhood `[0 - 2, 0 + 2)` clipped to `[0, 4)` is `[0, 2)` — lines
2 and 3 are warmed outside it. -/
theorem prefetch_window_cex :
    (prefetchAround lines4 100 4 [] 0).map Prod.snd = some [0, 1, 2, 3] ∧
    claimNeighborhood 4 lines4.length 0 = (0, 2) ∧
    ¬ ((3 : Int) < (claimNeighborhood 4 lines4.length 0).2) := by
  refine ⟨by decide, by decide, by decide⟩

/-! ## Manager lemmas -/

/-- A bounds-checked read inside the loaded slice succeeds. -/
lemma listGetI_isSome {l : List TraceLine} {i : Int} (h0 : 0 ≤ i)
    (h1 : i < (l.length : Int)) : ∃ r, listGetI l i = some r := by
  unfold listGetI
  rw [if_pos h0]
  have hlt : i.toNat < l.length := by omega
  exact ⟨l.get ⟨i.toNat, hlt⟩, List.get?_eq_get hlt⟩

/-- Every cursor operation from a state satisfying the manager
invariant (with the file fully loaded) succeeds and preserves the
invariant. -/
lemma stepTM_inv {tm : TraceManager} (h : tmInv tm) (op : TMOp) :
    ∃ tm2, stepTM tm op = some tm2 ∧ tmInv tm2 := by
  obtain ⟨hiff, hge, hlt, htot⟩ := h
  cases op with
  | next =>
    refine ⟨(Next tm).1, rfl, ?_⟩
    unfold Next
    by_cases hc : tm.CurrentIndex < (tm.Instructions.length : Int) - 1
    · rw [if_pos hc]
      have hcur : ∃ r, GetCurrent tm = some r := by
        rcases hlt with hlt | ⟨hl0, _⟩
        · exact listGetI_isSome hge hlt
        · exfalso; omega
      obtain ⟨r, hr⟩ := hcur
      refine ⟨?_, ?_, ?_, ?_⟩ <;> dsimp only
      · rw [hr]
        exact iff_of_false (by simp) (by omega)
      · omega
      · exact Or.inl (by omega)
      · exact htot
    · rw [if_neg hc]
      exact ⟨hiff, hge, hlt, htot⟩
  | prev =>
    by_cases hpos : 0 < tm.CurrentIndex
    · have hcl : tm.CurrentIndex < (tm.Instructions.length : Int) := by
        rcases hlt with hlt | ⟨hl0, hc0⟩
        · exact hlt
        · omega
      by_cases h2 : 0 ≤ tm.CurrentIndex - 1 - 1
      · obtain ⟨r, hr⟩ := listGetI_isSome (l := tm.Instructions)
          (i := tm.CurrentIndex - 1 - 1) h2 (by omega)
        refine ⟨{ tm with CurrentIndex := tm.CurrentIndex - 1, PrevLine := some r }, ?_, ?_⟩
        · show (Prev tm).map Prod.fst = _
          unfold Prev
          rw [if_pos hpos, if_pos h2, hr]
          rfl
        · refine ⟨?_, ?_, ?_, ?_⟩ <;> dsimp only
          · exact iff_of_false (by simp) (by omega)
          · omega
          · exact Or.inl (by omega)
          · exact htot
      · refine ⟨{ tm with CurrentIndex := tm.CurrentIndex - 1, PrevLine := none }, ?_, ?_⟩
        · show (Prev tm).map Prod.fst = _
          unfold Prev
          rw [if_pos hpos, if_neg h2]
          rfl
        · refine ⟨?_, ?_, ?_, ?_⟩ <;> dsimp only
          · exact iff_of_true rfl (by omega)
          · omega
          · exact Or.inl (by omega)
          · exact htot
    · refine ⟨tm, ?_, hiff, hge, hlt, htot⟩
      show (Prev tm).map Prod.fst = some tm
      unfold Prev
      rw [if_neg hpos]
      rfl
  | goto i =>
    refine ⟨(GoTo tm i).1, rfl, ?_⟩
    unfold GoTo
    by_cases hr : 0 ≤ i ∧ i < tm.totalLines
    · rw [if_pos hr]
      by_cases hi1 : 0 ≤ i - 1
      · obtain ⟨r, hgr⟩ := listGetI_isSome (l := tm.Instructions) (i := i - 1) hi1 (by omega)
        refine ⟨?_, ?_, ?_, ?_⟩ <;> dsimp only
        · rw [if_pos hi1]
          show listGetI tm.Instructions (i - 1) = none ↔ i = 0
          rw [hgr]
          exact iff_of_false (by simp) (by omega)
        · omega
        · exact Or.inl (by omega)
        · exact htot
      · refine ⟨?_, ?_, ?_, ?_⟩ <;> dsimp only
        · rw [if_neg hi1]
          exact iff_of_true rfl (by omega)
        · omega
        · exact Or.inl (by omega)
        · exact htot
    · rw [if_neg hr]
      exact ⟨hiff, hge, hlt, htot⟩

/-- Any sequence of cursor operations from an invariant state succeeds
and preserves the invariant. -/
lemma runTM_inv {tm : TraceManager} (h : tmInv tm) :
    ∀ ops, ∃ tm2, runTM tm ops = some tm2 ∧ tmInv tm2 := by
  intro ops
  induction ops generalizing tm with
  | nil => exact ⟨tm, rfl, h⟩
  | cons op ops ih =>
    obtain ⟨tm1, hs, h1⟩ := stepTM_inv h op
    obtain ⟨tm2, hr, h2⟩ := ih h1
    refine ⟨tm2, ?_, h2⟩
    unfold runTM
    rw [hs]
    exact hr

/-- The boolean previous-record invariant follows from its
propositional form. -/
lemma prevCacheInv_eq_true {tm : TraceManager}
    (h : tm.PrevLine = none ↔ tm.CurrentIndex = 0) : prevCacheInv tm = true := by
  unfold prevCacheInv
  by_cases hp : tm.PrevLine = none
  · simp [hp, h.mp hp]
  · have hc : tm.CurrentIndex ≠ 0 := fun hc => hp (h.mpr hc)
    rcases hpd : tm.PrevLine with _ | r
    · exact absurd hpd hp
    · simp [hpd, hc]

/-- C7: from any manager state whose cursor satisfies the documented
invariant `0 ≤ CurrentIndex < len(loaded)`, `Next` returns true
exactly when the cursor is not at the last loaded record, and on
success advances by one caching the pre-advance record as `PrevLine`;
in particular on the fully loaded 10-line file three `Next` calls from
cursor 0 land at position 3 with `PrevLine` the record at position 2. -/
theorem next_advances (tm : TraceManager)
    (h0 : 0 ≤ tm.CurrentIndex) (h1 : tm.CurrentIndex < (tm.Instructions.length : Int)) :
    ((Next tm).2 = true ↔ tm.CurrentIndex ≠ (tm.Instructions.length : Int) - 1) ∧
    ((Next tm).2 = true →
      (Next tm).1.CurrentIndex = tm.CurrentIndex + 1 ∧
      (Next tm).1.PrevLine = GetCurrent tm ∧ ∃ r, GetCurrent tm = some r) ∧
    (runTM tm10 [TMOp.next, TMOp.next, TMOp.next]).map
      (fun m => (m.CurrentIndex, m.PrevLine)) = some (3, some (mkRec 2)) := by
  refine ⟨?_, ?_, by decide⟩
  · unfold Next
    by_cases hc : tm.CurrentIndex < (tm.Instructions.length : Int) - 1
    · rw [if_pos hc]
      exact iff_of_true rfl (by omega)
    · rw [if_neg hc]
      refine iff_of_false (by simp) ?_
      intro hne
      omega
  · intro hadv
    unfold Next at hadv ⊢
    by_cases hc : tm.CurrentIndex < (tm.Instructions.length : Int) - 1
    · rw [if_pos hc] at hadv ⊢
      exact ⟨rfl, rfl, listGetI_isSome h0 h1⟩
    · rw [if_neg hc] at hadv
      exact Bool.noConfusion hadv

/-- Witness for C7: on the fully loaded 10-line manager at cursor 0,
`Next` advances to position 1. -/
theorem next_advances_witness : (Next tm10).2 = true ∧ (Next tm10).1.CurrentIndex = 1 := by
  have h := next_advances tm10 (by decide) (by decide)
  have hb : (Next tm10).2 = true := h.1.mpr (by decide)
  exact ⟨hb, (h.2.1 hb).1⟩

/-- Counterexample to C8 as stated: from the initial state of a
manager whose loaded slice covers only lines 0..3 of a 10-line file,
the single operation `goTo 9` yields `PrevLine = none` (the
bounds-checked `GetLine(8)` returns nil) at `CurrentIndex = 9`,
breaking the invariant `PrevLine = nil ↔ CurrentIndex = 0`. -/
theorem goto_breaks_prev_invariant :
    runInvB (runTM tmWin [TMOp.goto 9]) = false ∧
    (runTM tmWin [TMOp.goto 9]).map (fun m => (m.CurrentIndex, m.PrevLine)) =
      some (9, none) := by
  refine ⟨by decide, by decide⟩

/-- C8 (amended): starting from an initial state (position 0, empty
previous record) whose file is fully loaded
(`totalLines ≤ len(loaded)`), every sequence of `Next`, `Prev` and
`GoTo` operations completes without panic and preserves the invariant
that `PrevLine` is nil exactly when `CurrentIndex` is 0. -/
theorem prev_invariant_preserved (tm0 : TraceManager) (ops : List TMOp)
    (hidx : tm0.CurrentIndex = 0) (hprev : tm0.PrevLine = none)
    (htot : tm0.totalLines ≤ (tm0.Instructions.length : Int)) :
    (runTM tm0 ops).isSome = true ∧ runInvB (runTM tm0 ops) = true := by
  have h0 : tmInv tm0 := by
    refine ⟨iff_of_true hprev hidx, by omega, ?_, htot⟩
    by_cases hl : tm0.Instructions.length = 0
    · exact Or.inr ⟨hl, hidx⟩
    · exact Or.inl (by omega)
  obtain ⟨tm2, hr, h2⟩ := runTM_inv h0 ops
  rw [hr]
  exact ⟨rfl, prevCacheInv_eq_true h2.1⟩

/-- Witness for C8: on the fully loaded 10-line manager, a `Next`
followed by a `Prev` completes and restores `PrevLine = none` at
position 0. -/
theorem prev_invariant_preserved_witness :
    (runTM tm10 [TMOp.next, TMOp.prev]).isSome = true ∧
    runInvB (runTM tm10 [TMOp.next, TMOp.prev]) = true :=
  prev_invariant_preserved tm10 [TMOp.next, TMOp.prev] rfl rfl (by decide)

/-- C9 (amended): for any in-range target, `GoTo` returns true and
performs no reload — the loaded slice and the recorded window are
unchanged — and when the target is beyond the loaded slice the cursor
is left pointing outside it (`GetCurrent` yields nil): the window is
silently left stale. -/
theorem goto_no_reload (tm : TraceManager) (i : Int)
    (h0 : 0 ≤ i) (h1 : i < tm.totalLines) :
    (GoTo tm i).2 = true ∧
    (GoTo tm i).1.Instructions = tm.Instructions ∧
    (GoTo tm i).1.loadedRange = tm.loadedRange ∧
    (GoTo tm i).1.CurrentIndex = i ∧
    ((tm.Instructions.length : Int) ≤ i → GetCurrent (GoTo tm i).1 = none) := by
  unfold GoTo
  rw [if_pos ⟨h0, h1⟩]
  refine ⟨rfl, rfl, rfl, rfl, ?_⟩
  intro hlen
  unfold GetCurrent listGetI
  dsimp only
  rw [if_pos h0]
  have hge : tm.Instructions.length ≤ i.toNat := by omega
  exact List.get?_eq_none.mpr hge

/-- Counterexample to C9 as stated: on the manager with window
`[0, 4)` over a 10-line file, `GoTo 9` returns true (not false) and
triggers no reload — the loaded slice and recorded range are unchanged
and the cursor now points at a line the window cannot serve. -/
theorem goto_no_reload_cex :
    (GoTo tmWin 9).2 = true ∧
    (GoTo tmWin 9).1.loadedRange = (0, 4) ∧
    (GoTo tmWin 9).1.Instructions = tmWin.Instructions ∧
    GetCurrent (GoTo tmWin 9).1 = none := by
  refine ⟨by decide, by decide, by decide, by decide⟩

/-- Witness for C9: a concrete in-range jump on the fully loaded
manager returns true with the cursor moved and nothing reloaded. -/
theorem goto_no_reload_witness :
    (GoTo tm10 5).2 = true ∧ (GoTo tm10 5).1.CurrentIndex = 5 := by
  have h := goto_no_reload tm10 5 (by decide) (by decide)
  exact ⟨h.1, h.2.2.2.1⟩

/-- C10 (amended): `AddInstruction` appends the record at the end of
the loaded records and sets the total count to the new length of the
loaded set; hence the total equals its previous value plus one exactly
in the live-append regime where the total already equalled the loaded
length. -/
theorem addinstruction_appends (tm : TraceManager) (r : TraceLine) :
    (AddInstruction tm r).Instructions = tm.Instructions ++ [r] ∧
    (AddInstruction tm r).totalLines = (tm.Instructions.length : Int) + 1 ∧
    (AddInstruction tm r).Instructions.getLast? = some r ∧
    (tm.totalLines = (tm.Instructions.length : Int) →
      (AddInstruction tm r).totalLines = tm.totalLines + 1) := by
  unfold AddInstruction
  refine ⟨rfl, ?_, ?_, ?_⟩
  · dsimp only
    simp
  · dsimp only
    simp
  · intro h
    dsimp only
    rw [h]
    simp

/-- Counterexample to C10 as stated: on the four-record manager whose
file has 10 lines, appending a record sets the total to 5 (the new
loaded length), not to the previous total plus one (11). -/
theorem addinstruction_total_cex :
    (AddInstruction tmWin (mkRec 99)).totalLines = 5 ∧
    tmWin.totalLines + 1 = 11 ∧
    ¬ ((AddInstruction tmWin (mkRec 99)).totalLines = tmWin.totalLines + 1) := by
  refine ⟨by decide, by decide, by decide⟩

/-- Witness for C10: on the fully loaded 10-line manager (total =
loaded length), appending does increase the total by one. -/
theorem addinstruction_appends_witness :
    (AddInstruction tm10 (mkRec 99)).totalLines = tm10.totalLines + 1 :=
  (addinstruction_appends tm10 (mkRec 99)).2.2.2 (by decide)

end TraceParse
